import Mathlib

/-!
Verification of the documentation Q&A agent (`qa-agent.py`).

The development shallowly embeds the program:
* string / URL helpers model `urllib.parse.urlparse` / `urljoin` for the
  behaviours the program exercises;
* an HTML tree type models the parsed documents handed back by the
  HTML collaborator, with the query operations the program calls;
* `crawl_page` / `process_documentation` embed the crawler with an explicit
  state record and a fuel bound standing in for Python's recursion budget;
* `format_context` / `answer_question` embed the assembler, with the
  completion collaborator abstracted as a function into `Except`.
-/

namespace QA

/-- Characters Python's `str.strip()` removes. -/
def isWS (c : Char) : Bool :=
  c == ' ' || c == '\t' || c == '\n' || c == '\r' || c == '\x0c' || c == '\x0b'

/-- `str.strip()` on the character list. -/
def stripChars (l : List Char) : List Char :=
  ((l.dropWhile isWS).reverse.dropWhile isWS).reverse

/-- `str.strip()`. -/
def strip (s : String) : String :=
  ⟨stripChars s.data⟩

/-- Boolean substring test on character lists (Python's `needle in hay`). -/
def hasSubstr (hay needle : List Char) : Bool :=
  if needle.isPrefixOf hay then true
  else
    match hay with
    | [] => false
    | _ :: t => hasSubstr t needle

/-- Python's `sub in s` on strings. -/
def containsStr (s sub : String) : Bool :=
  hasSubstr s.data sub.data

/-- Split a character list at the first occurrence of `needle`; `none` when
`needle` does not occur. -/
def splitOnSub (hay needle : List Char) : Option (List Char × List Char) :=
  if needle.isPrefixOf hay then some ([], hay.drop needle.length)
  else
    match hay with
    | [] => none
    | c :: t =>
      match splitOnSub t needle with
      | some (pre, post) => some (c :: pre, post)
      | none => none

/-- Result of `urllib.parse.urlparse`: the components the program reads. -/
structure UrlParts where
  scheme : String
  netloc : String
  path : String
deriving DecidableEq

/-- Models `urllib.parse.urlparse` restricted to the components the program
reads (`scheme`, `netloc`, `path`).  A URL with `"://"` is split into scheme,
authority and path; other strings parse with an empty `netloc`.  `none` models
the `ValueError` urlparse raises on an authority with an unmatched IPv6
bracket. -/
def urlparse (url : String) : Option UrlParts :=
  match splitOnSub url.data "://".data with
  | some (sch, rest) =>
    let netloc := rest.takeWhile (fun c => !(c == '/') && !(c == '?') && !(c == '#'))
    let path := (rest.drop netloc.length).takeWhile (fun c => !(c == '?') && !(c == '#'))
    if (netloc.contains '[') != (netloc.contains ']') then none
    else some ⟨⟨sch⟩, ⟨netloc⟩, ⟨path⟩⟩
  | none =>
    some ⟨"", "", ⟨url.data.takeWhile (fun c => !(c == '?') && !(c == '#'))⟩⟩

/-- The directory part of a path: everything up to and including the final
slash. -/
def dirOf (path : String) : String :=
  ⟨(path.data.reverse.dropWhile (fun c => !(c == '/'))).reverse⟩

/-- Models `urllib.parse.urljoin` for the references the crawler meets:
an absolute URL (containing `"://"`) replaces the base; a root-relative or
relative reference is resolved against the base's authority and directory
(no dot-segment normalisation). -/
def urljoin (base url : String) : String :=
  if hasSubstr url.data "://".data then url
  else
    match urlparse base with
    | some p =>
      if url.data.head? == some '/' then p.scheme ++ "://" ++ p.netloc ++ url
      else p.scheme ++ "://" ++ p.netloc ++ dirOf p.path ++ url
    | none => url

/-- `DocumentProcessor.is_valid_url`: the discovered URL's `netloc` must equal
the base URL's `netloc`, and the URL string must not contain any of the
substrings `.png`, `.jpg`, `.css`, `.js`; any parse failure yields `false`
(the `except` branch). -/
def is_valid_url (base_url url : String) : Bool :=
  match urlparse url, urlparse base_url with
  | some parsed, some base_parsed =>
    parsed.netloc == base_parsed.netloc &&
      !([".png", ".jpg", ".css", ".js"].any (fun ext => containsStr url ext))
  | _, _ => false

/-- The same-host half of the admissibility test, written as the spec states
it: both URLs parse and their hosts coincide. -/
def same_host (base_url url : String) : Bool :=
  match urlparse url, urlparse base_url with
  | some parsed, some base_parsed => parsed.netloc == base_parsed.netloc
  | _, _ => false

/-- The extension half of `is_valid_url` as the code computes it: one of the
four extension strings occurs somewhere in the URL string. -/
def url_has_banned_ext (url : String) : Bool :=
  [".png", ".jpg", ".css", ".js"].any (fun ext => containsStr url ext)

/-! ## The HTML collaborator

`BeautifulSoup(…, 'html.parser')` yields a tree of elements and text nodes.
The program only reads an element's tag name, its `class` attribute and its
`href` attribute, so the model keeps exactly those. -/

mutual
/-- A node of the parsed HTML tree. -/
inductive HtmlNode where
  | elem (tag : String) (classes : List String) (href : Option String)
         (children : HtmlForest)
  | text (s : String)

/-- A sequence of sibling HTML nodes (a document is such a forest). -/
inductive HtmlForest where
  | nil
  | cons (head : HtmlNode) (tail : HtmlForest)
end

/-- Build a forest from a list of already-built nodes (literal documents). -/
def HtmlForest.ofList : List HtmlNode → HtmlForest
  | [] => .nil
  | n :: rest => .cons n (HtmlForest.ofList rest)

/-- Short name for writing document literals. -/
def F (ns : List HtmlNode) : HtmlForest :=
  HtmlForest.ofList ns

/-- The tag names `extract_content` decomposes:
`soup.select('nav, header, footer, script, style')`. -/
def decomposedTags : List String :=
  ["nav", "header", "footer", "script", "style"]

mutual
/-- `Tag.decompose` on one node: drop it (with its whole subtree) when its
tag is selected, otherwise decompose its children. -/
def decomposeNode (bad : List String) : HtmlNode → Option HtmlNode
  | .elem t c h ch =>
    if bad.contains t then none else some (.elem t c h (decomposeForest bad ch))
  | .text s => some (.text s)

/-- Remove every element of the forest whose tag is in `bad`, together with
its subtree (`soup.select(...)` followed by `Tag.decompose` on each hit). -/
def decomposeForest (bad : List String) : HtmlForest → HtmlForest
  | .nil => .nil
  | .cons n rest =>
    match decomposeNode bad n with
    | some n' => .cons n' (decomposeForest bad rest)
    | none => decomposeForest bad rest
end

mutual
/-- All text-node contents below one node, in document order. -/
def nodeStrings : HtmlNode → List String
  | .elem _ _ _ ch => forestStrings ch
  | .text s => [s]

/-- All text-node contents of a forest, in document order (`Tag.strings`). -/
def forestStrings : HtmlForest → List String
  | .nil => []
  | .cons n rest => nodeStrings n ++ forestStrings rest
end

/-- `Tag.stripped_strings`: each string stripped, whitespace-only strings
dropped. -/
def strippedStrings (n : HtmlNode) : List String :=
  ((nodeStrings n).map strip).filter (fun s => !(s == ""))

mutual
/-- First element below this node (itself included, document order)
satisfying a predicate on tag and classes. -/
def selectFirstNode (p : String → List String → Bool) : HtmlNode → Option HtmlNode
  | .elem t c h ch =>
    if p t c then some (.elem t c h ch) else selectFirstForest p ch
  | .text _ => none

/-- `soup.select_one` for the selector groups the program uses: the first
element of the forest, in document order, satisfying `p`. -/
def selectFirstForest (p : String → List String → Bool) :
    HtmlForest → Option HtmlNode
  | .nil => none
  | .cons n rest =>
    match selectFirstNode p n with
    | some m => some m
    | none => selectFirstForest p rest
end

/-- The selector group `'main, article, .content, .documentation'`. -/
def isMainSelector (tag : String) (classes : List String) : Bool :=
  tag == "main" || tag == "article" ||
    classes.contains "content" || classes.contains "documentation"

/-- `soup.title`: the first `title` element of the document. -/
def findTitle (ns : HtmlForest) : Option HtmlNode :=
  selectFirstForest (fun t _ => t == "title") ns

/-- `Tag.string` of a `title` element parsed by `html.parser`: the single
text child when there is one, `None` otherwise (in particular for
`<title></title>`). -/
def titleString : HtmlNode → Option String
  | .elem _ _ _ (.cons (.text s) .nil) => some s
  | _ => none

mutual
/-- `href` values of anchor elements below one node, in document order. -/
def nodeLinks : HtmlNode → List String
  | .elem t _ h ch =>
    (if t == "a" then h.toList else []) ++ forestLinks ch
  | .text _ => []

/-- `soup.find_all('a', href=True)`: the `href` values of all anchor
elements with an `href` attribute, in document order. -/
def forestLinks : HtmlForest → List String
  | .nil => []
  | .cons n rest => nodeLinks n ++ forestLinks rest
end

/-- `DocumentChunk`: one record per successfully processed page.  `title` is
an `Option` because the Python field receives `None` when a present title
element has no string. -/
structure DocumentChunk where
  content : String
  url : String
  title : Option String
deriving DecidableEq

/-- `DocumentProcessor.extract_content`.  Decomposing mutates the soup, and
`crawl_page` enumerates links afterwards, so the function returns the
decomposed document alongside the optional chunk. -/
def extract_content (doc : HtmlForest) (url : String) :
    HtmlForest × Option DocumentChunk :=
  let doc' := decomposeForest decomposedTags doc
  let main_content :=
    match selectFirstForest isMainSelector doc' with
    | some m => some m
    | none => selectFirstForest (fun t _ => t == "body") doc'
  match main_content with
  | none => (doc', none)
  | some m =>
    let title : Option String :=
      match findTitle doc' with
      | some tEl => titleString tEl
      | none => some url
    let content := " ".intercalate (strippedStrings m)
    (doc', some ⟨content, url, title⟩)

/-! ## The crawler -/

/-- Outcome of `requests.get(url, timeout=10)` followed by
`raise_for_status()` and parsing: `ok` carries the parsed document of a 2xx
response; `fail` is a transport error or a non-2xx status (an exception). -/
inductive FetchResult where
  | ok (doc : HtmlForest)
  | fail

/-- The mutable state of a `DocumentProcessor`, plus an event log
(`fetched`) recording every HTTP GET the crawler issues, each entry tagged
with whether the fetch succeeded (2xx). -/
structure CrawlState where
  base_url : String
  visited_urls : List String
  chunks : List DocumentChunk
  fetched : List (String × Bool)
deriving DecidableEq

/-- `DocumentProcessor.__init__`. -/
def initState (base_url : String) : CrawlState :=
  { base_url := base_url, visited_urls := [], chunks := [], fetched := [] }

/-- `DocumentProcessor.crawl_page`, with `web` the HTTP-fetch-and-parse
collaborator and a fuel bound standing in for Python's recursion budget.
The steps, in the source's order: skip a visited or inadmissible URL; issue
the GET (logged in `fetched`); on an exception stop, the error being caught
and logged; on success mark the URL visited, extract and store the chunk if
any, and recurse through the anchors of the (decomposed) soup. -/
def crawl_page (web : String → FetchResult) : Nat → String → CrawlState → CrawlState
  | 0, _, st => st
  | fuel + 1, url, st =>
    if st.visited_urls.contains url || !(is_valid_url st.base_url url) then st
    else
      match web url with
      | .fail => { st with fetched := st.fetched ++ [(url, false)] }
      | .ok doc =>
        let st1 := { st with
          fetched := st.fetched ++ [(url, true)],
          visited_urls := st.visited_urls ++ [url] }
        let res := extract_content doc url
        let st2 :=
          match res.2 with
          | some chunk => { st1 with chunks := st1.chunks ++ [chunk] }
          | none => st1
        (forestLinks res.1).foldl
          (fun s href => crawl_page web fuel (urljoin url href) s) st2

/-- `DocumentProcessor.process_documentation`: the executor runs the single
submitted task `crawl_page(base_url)` to completion; its exception, if any,
is stored in the never-inspected future, so the call always returns. -/
def process_documentation (web : String → FetchResult) (fuel : Nat)
    (base_url : String) : CrawlState :=
  crawl_page web fuel base_url (initState base_url)

/-! ## The agent -/

/-- `QAAgent`: the only crawl-relevant field is the optional processor. -/
structure QAAgent where
  processor : Option CrawlState
deriving DecidableEq

/-- `QAAgent.initialize_with_url`.  Its `try/except ... raise` can only
re-raise what `process_documentation` lets escape; `crawl_page` catches all
exceptions and the executor future is never awaited, so the body never
raises and the result is always `ok`. -/
def initialize_with_url (web : String → FetchResult) (fuel : Nat)
    (url : String) : Except String QAAgent :=
  Except.ok { processor := some (process_documentation web fuel url) }

/-- Python's `f"{chunk.title}"` interpolation: `None` prints as `"None"`. -/
def pyOptionStr : Option String → String
  | some s => s
  | none => "None"

/-- `QAAgent.format_context`. -/
def format_context (agent : QAAgent) : String :=
  match agent.processor with
  | none => ""
  | some p =>
    if p.chunks.isEmpty then ""
    else
      p.chunks.foldl
        (fun ctx chunk =>
          ctx ++ "Source: " ++ chunk.url ++ "\nTitle: " ++ pyOptionStr chunk.title ++
            "\nContent: " ++ chunk.content ++ "\n\n")
        "Here is the relevant documentation:\n\n"

/-- The prompt template of `answer_question` (the f-string literal, with the
context and question interpolated). -/
def mk_prompt (ctx question : String) : String :=
  "You are a helpful documentation assistant. Based on the provided documentation, \n" ++
  "            answer the following question. If the information is not available in the documentation, \n" ++
  "            clearly state that. Include relevant source URLs in your answer.\n\n" ++
  "            Documentation Context:\n            " ++ ctx ++
  "\n\n            Question: " ++ question ++
  "\n\n            Please provide a clear and concise answer based solely on the documentation provided above."

/-- The fixed uninitialized-state message. -/
def uninitializedMsg : String :=
  "Error: Documentation not initialized. Please provide a help website URL first."

/-- `QAAgent.answer_question`, with the completion collaborator abstracted
as `complete`; `Except.error` models any exception in the API call (network,
auth, quota, malformed response), whose `str(e)` is the carried string.  The
result pairs the agent state after the call with the returned string; the
method only reads `self`, so the state is passed through. -/
def answer_question (complete : String → Except String String)
    (agent : QAAgent) (question : String) : QAAgent × String :=
  match agent.processor with
  | none => (agent, uninitializedMsg)
  | some _ =>
    match complete (mk_prompt (format_context agent) question) with
    | .ok text => (agent, text)
    | .error e => (agent, "Error generating answer: " ++ e)

/-! ## Derived measures and concrete instances used in the theorems -/

/-- Number of successful (2xx) fetch events for a URL in the event log. -/
def succCount (u : String) (log : List (String × Bool)) : Nat :=
  (log.filter (fun e => e.1 == u && e.2)).length

/-- Number of fetch events (any outcome) for a URL in the event log. -/
def fetchCount (u : String) (log : List (String × Bool)) : Nat :=
  (log.filter (fun e => e.1 == u)).length

/-- The extension test the spec describes: the URL's path ends in one of the
four extensions. -/
def path_ends_in_banned_ext (url : String) : Bool :=
  match urlparse url with
  | some p => [".png", ".jpg", ".css", ".js"].any (fun ext => ext.data.isSuffixOf p.path.data)
  | none => false

/-- The admissibility filter as the claim states it: same host, and the
path does not end in one of the four extensions. -/
def spec_filter (base_url url : String) : Bool :=
  same_host base_url url && !path_ends_in_banned_ext url

/-- The amended admissibility filter: same host, and none of the four
extension strings occurs anywhere in the URL string. -/
def code_filter (base_url url : String) : Bool :=
  same_host base_url url && !url_has_banned_ext url

/-- The page of the extraction-correctness scenario: `nav`, `header`,
`footer`, `script`, `style` elements alongside a `main` element whose
non-empty text nodes are `"A"` and `"B"`. -/
def extractionDoc : HtmlForest :=
  F [.elem "html" [] none (F
    [.elem "head" [] none (F [.elem "title" [] none (F [.text "T"])]),
     .elem "body" [] none (F
       [.elem "nav" [] none (F [.text "NAVTEXT"]),
        .elem "header" [] none (F [.text "HEADERTEXT"]),
        .elem "main" [] none (F [.text "A", .elem "b" [] none (F [.text "B"])]),
        .elem "footer" [] none (F [.text "FOOTERTEXT"]),
        .elem "script" [] none (F [.text "SCRIPTTEXT"]),
        .elem "style" [] none (F [.text "STYLETEXT"])])])]

/-- A page whose `title` element is present but empty (`<title></title>`),
with body text `"x"`. -/
def emptyTitleDoc : HtmlForest :=
  F [.elem "html" [] none (F
    [.elem "head" [] none (F [.elem "title" [] none .nil]),
     .elem "body" [] none (F [.text "x"])])]

/-- A site whose seed page links twice to a URL whose fetch fails. -/
def webDupFail : String → FetchResult := fun u =>
  if u == "http://h/" then
    .ok (F [.elem "body" [] none (F
      [.text "hello",
       .elem "a" [] (some "http://h/x") .nil,
       .elem "a" [] (some "http://h/x") .nil])])
  else .fail

/-- A site whose seed page has a `body` element with no text at all. -/
def webEmptyBody : String → FetchResult := fun u =>
  if u == "http://h/" then
    .ok (F [.elem "html" [] none (F [.elem "body" [] none .nil])])
  else .fail

/-- A site where every fetch fails (the seed URL is unreachable). -/
def webDown : String → FetchResult := fun _ => .fail

/-! ## General lemmas -/

theorem is_valid_url_eq (base_url url : String) :
    is_valid_url base_url url = (same_host base_url url && !url_has_banned_ext url) := by
  unfold is_valid_url same_host url_has_banned_ext
  cases urlparse url <;> cases urlparse base_url <;> simp

theorem foldl_preserve {α σ : Type} (f : σ → α → σ) (P : σ → Prop)
    (h : ∀ s a, P s → P (f s a)) :
    ∀ (l : List α) (s : σ), P s → P (l.foldl f s) := by
  intro l
  induction l with
  | nil => intro s hs; simpa using hs
  | cons a t ih => intro s hs; simpa using ih (f s a) (h s a hs)

/-- Every property preserved by the two fetch outcomes of a single page step
is preserved by the whole crawl. -/
theorem crawl_page_preserve (web : String → FetchResult) (P : CrawlState → Prop)
    (hfail : ∀ st url, P st → st.visited_urls.contains url = false →
      is_valid_url st.base_url url = true →
      P { st with fetched := st.fetched ++ [(url, false)] })
    (hok : ∀ st url doc, P st → st.visited_urls.contains url = false →
      is_valid_url st.base_url url = true → web url = .ok doc →
      P { st with fetched := st.fetched ++ [(url, true)],
                  visited_urls := st.visited_urls ++ [url],
                  chunks := st.chunks ++ (extract_content doc url).2.toList }) :
    ∀ fuel url st, P st → P (crawl_page web fuel url st) := by
  intro fuel
  induction fuel with
  | zero => intro url st h; simpa [crawl_page] using h
  | succ n ih =>
    intro url st hP
    rw [crawl_page]
    by_cases hc : (st.visited_urls.contains url || !(is_valid_url st.base_url url)) = true
    · simp only [hc, if_true]
      exact hP
    · simp only [hc, if_false, Bool.false_eq_true]
      have hcontains : st.visited_urls.contains url = false := by
        rcases Bool.or_eq_false_iff.mp (Bool.eq_false_iff.mpr hc) with ⟨h1, _⟩
        exact h1
      have hvalid : is_valid_url st.base_url url = true := by
        rcases Bool.or_eq_false_iff.mp (Bool.eq_false_iff.mpr hc) with ⟨_, h2⟩
        simpa using h2
      cases hweb : web url with
      | fail => exact hfail st url hP hcontains hvalid
      | ok doc =>
        refine foldl_preserve _ P (fun s a hs => ih (urljoin url a) s hs) _ _ ?_
        have hbase := hok st url doc hP hcontains hvalid hweb
        cases hres : (extract_content doc url).2 with
        | none => simpa [hres] using hbase
        | some c => simpa [hres] using hbase

/-- The crawl never changes `base_url`. -/
theorem crawl_page_base (web : String → FetchResult) (fuel : Nat) (url : String)
    (st : CrawlState) : (crawl_page web fuel url st).base_url = st.base_url := by
  refine crawl_page_preserve web (fun s => s.base_url = st.base_url) ?_ ?_ fuel url st rfl
  · intro s u hs _ _; exact hs
  · intro s u doc hs _ _ _; exact hs

/-- The crawl only appends to `visited_urls`, `fetched` and `chunks`. -/
theorem crawl_page_grows (web : String → FetchResult) (fuel : Nat) (url : String)
    (st : CrawlState) :
    (∃ t, (crawl_page web fuel url st).visited_urls = st.visited_urls ++ t) ∧
    (∃ t, (crawl_page web fuel url st).fetched = st.fetched ++ t) ∧
    (∃ t, (crawl_page web fuel url st).chunks = st.chunks ++ t) := by
  refine crawl_page_preserve web
    (fun s => (∃ t, s.visited_urls = st.visited_urls ++ t) ∧
      (∃ t, s.fetched = st.fetched ++ t) ∧
      (∃ t, s.chunks = st.chunks ++ t)) ?_ ?_ fuel url st
    ⟨⟨[], by simp⟩, ⟨[], by simp⟩, ⟨[], by simp⟩⟩
  · rintro s u ⟨⟨tv, hv⟩, ⟨tf, hf⟩, ⟨tc, hc⟩⟩ _ _
    exact ⟨⟨tv, hv⟩, ⟨tf ++ [(u, false)], by simp [hf]⟩, ⟨tc, hc⟩⟩
  · rintro s u doc ⟨⟨tv, hv⟩, ⟨tf, hf⟩, ⟨tc, hc⟩⟩ _ _ _
    exact ⟨⟨tv ++ [u], by simp [hv]⟩, ⟨tf ++ [(u, true)], by simp [hf]⟩,
      ⟨tc ++ (extract_content doc u).2.toList, by simp [hc]⟩⟩

/-- Every URL the crawl ever fetches passed `is_valid_url` against the
state's base URL. -/
theorem crawl_page_fetched_valid (web : String → FetchResult) (fuel : Nat)
    (url : String) (st : CrawlState)
    (h0 : ∀ e ∈ st.fetched, is_valid_url st.base_url e.1 = true) :
    ∀ e ∈ (crawl_page web fuel url st).fetched,
      is_valid_url (crawl_page web fuel url st).base_url e.1 = true := by
  rw [crawl_page_base]
  refine crawl_page_preserve web
    (fun s => s.base_url = st.base_url ∧
      ∀ e ∈ s.fetched, is_valid_url st.base_url e.1 = true) ?_ ?_ fuel url st
    ⟨rfl, h0⟩ |>.2
  · rintro s u ⟨hb, hs⟩ _ hvalid
    refine ⟨hb, ?_⟩
    intro e he
    rcases List.mem_append.mp he with h | h
    · exact hs e h
    · have : e = (u, false) := by simpa using h
      subst this
      simpa [hb] using hvalid
  · rintro s u doc ⟨hb, hs⟩ _ hvalid _
    refine ⟨hb, ?_⟩
    intro e he
    rcases List.mem_append.mp he with h | h
    · exact hs e h
    · have : e = (u, true) := by simpa using h
      subst this
      simpa [hb] using hvalid

/-- Every URL the crawl ever marks visited passed `is_valid_url` against the
state's base URL. -/
theorem crawl_page_visited_valid (web : String → FetchResult) (fuel : Nat)
    (url : String) (st : CrawlState)
    (h0 : ∀ u ∈ st.visited_urls, is_valid_url st.base_url u = true) :
    ∀ u ∈ (crawl_page web fuel url st).visited_urls,
      is_valid_url (crawl_page web fuel url st).base_url u = true := by
  rw [crawl_page_base]
  refine crawl_page_preserve web
    (fun s => s.base_url = st.base_url ∧
      ∀ u ∈ s.visited_urls, is_valid_url st.base_url u = true) ?_ ?_ fuel url st
    ⟨rfl, h0⟩ |>.2
  · rintro s u ⟨hb, hs⟩ _ _
    exact ⟨hb, hs⟩
  · rintro s u doc ⟨hb, hs⟩ _ hvalid _
    refine ⟨hb, ?_⟩
    intro v hv
    rcases List.mem_append.mp hv with h | h
    · exact hs v h
    · have : v = u := by simpa using h
      subst this
      simpa [hb] using hvalid

/-- The running dedup invariant: the visited list has no duplicates, and a
URL has exactly one successful fetch when it is visited and none
otherwise. -/
def DedupInv (st : CrawlState) : Prop :=
  st.visited_urls.Nodup ∧
    ∀ u, succCount u st.fetched = if u ∈ st.visited_urls then 1 else 0

theorem crawl_page_dedup (web : String → FetchResult) (fuel : Nat) (url : String)
    (st : CrawlState) (h0 : DedupInv st) : DedupInv (crawl_page web fuel url st) := by
  refine crawl_page_preserve web DedupInv ?_ ?_ fuel url st h0
  · rintro s u ⟨hnd, hcount⟩ _ _
    refine ⟨hnd, ?_⟩
    intro v
    simpa [succCount, List.filter_append] using hcount v
  · rintro s u doc ⟨hnd, hcount⟩ hcontains _ _
    have hu : u ∉ s.visited_urls := by simpa using hcontains
    constructor
    · simpa [List.nodup_append] using ⟨hnd, hu⟩
    · intro v
      by_cases hv : v = u
      · subst hv
        have h1 : (s.fetched.filter (fun e => e.1 == v && e.2)).length = 0 := by
          simpa [succCount, hu] using hcount v
        simp [succCount, List.filter_append, h1]
      · have hne : (u == v) = false := by
          simpa using fun h => hv h.symm
        have h1 := hcount v
        simp only [succCount, List.filter_append] at h1 ⊢
        simp [hne, hv, h1]

/-- Every stored chunk comes from a successful fetch of its own URL whose
extraction produced exactly that chunk. -/
theorem extract_content_url (doc : HtmlForest) (url : String) (c : DocumentChunk)
    (h : (extract_content doc url).2 = some c) : c.url = url := by
  simp only [extract_content] at h
  split at h
  · simp at h
  · simp only [Option.some.injEq] at h
    subst h
    rfl

theorem crawl_page_chunks_sound (web : String → FetchResult) (fuel : Nat)
    (url : String) (st : CrawlState)
    (h0 : ∀ c ∈ st.chunks, ∃ doc, web c.url = .ok doc ∧
      (extract_content doc c.url).2 = some c) :
    ∀ c ∈ (crawl_page web fuel url st).chunks, ∃ doc, web c.url = .ok doc ∧
      (extract_content doc c.url).2 = some c := by
  refine crawl_page_preserve web
    (fun s => ∀ c ∈ s.chunks, ∃ doc, web c.url = .ok doc ∧
      (extract_content doc c.url).2 = some c) ?_ ?_ fuel url st h0
  · intro s u hs _ _
    exact hs
  · intro s u doc hs _ _ hweb
    intro c hc
    rcases List.mem_append.mp hc with h | h
    · exact hs c h
    · have hex : (extract_content doc u).2 = some c := by
        cases hres : (extract_content doc u).2 with
        | none => simp [hres] at h
        | some c' =>
          have : c = c' := by simpa [hres] using h
          subst this
          rfl
      have hurl : c.url = u := extract_content_url doc u c hex
      exact ⟨doc, by rw [hurl]; exact hweb, by rw [hurl]; exact hex⟩

theorem isPrefixOf_self (l : List Char) : l.isPrefixOf l = true := by
  induction l with
  | nil => rfl
  | cons c t ih => simp [List.isPrefixOf, ih]

theorem hasSubstr_append_self (pre post : List Char) :
    hasSubstr (pre ++ post) post = true := by
  induction pre with
  | nil => rw [hasSubstr.eq_def]; simp [isPrefixOf_self]
  | cons c t ih =>
    rw [hasSubstr.eq_def]
    split
    · rfl
    · exact ih

theorem string_data_append (a b : String) : (a ++ b).data = a.data ++ b.data :=
  rfl

theorem containsStr_append_self (a b : String) : containsStr (a ++ b) b = true := by
  unfold containsStr
  rw [string_data_append]
  exact hasSubstr_append_self a.data b.data

/-! ## The claims -/

/-- C1, corrected.  The admissibility filter the code implements checks the
four extension strings as substrings of the whole URL string, not as path
suffixes: `is_valid_url` accepts a URL exactly when its host equals the base
URL's host and none of `.png`, `.jpg`, `.css`, `.js` occurs anywhere in the
URL string (`code_filter`); and every URL for which the crawl ever issues a
GET passed that filter against the seed. -/
theorem claim_C1 :
    (∀ base_url url, is_valid_url base_url url = code_filter base_url url) ∧
    (∀ web fuel seed,
      ((process_documentation web fuel seed).fetched.all
        (fun e => is_valid_url seed e.1)) = true) := by
  constructor
  · intro b u
    rw [is_valid_url_eq]
    rfl
  · intro web fuel seed
    rw [List.all_eq_true]
    intro e he
    have h := crawl_page_fetched_valid web fuel seed (initState seed)
      (by simp [initState])
    rw [crawl_page_base] at h
    exact h e he

/-- C1 fails as stated: the same-host URL `http://example.com/data.json`
satisfies the spec's filter (its path ends in `.json`, none of the four
extensions), yet `is_valid_url` rejects it because `.js` occurs inside
`.json`. -/
theorem claim_C1_counterexample :
    spec_filter "http://example.com/" "http://example.com/data.json" = true ∧
    is_valid_url "http://example.com/" "http://example.com/data.json" = false := by
  decide

/-- C9: every URL ever inserted into the visited set passed the
admissibility filter for the crawl's seed (same host, none of the four
extension substrings anywhere in the URL string), and the visited set only
grows during a run. -/
theorem claim_C9 :
    (∀ web fuel seed,
      ((process_documentation web fuel seed).visited_urls.all
        (fun u => code_filter seed u)) = true) ∧
    (∀ web fuel url st, ∃ t,
      (crawl_page web fuel url st).visited_urls = st.visited_urls ++ t) := by
  constructor
  · intro web fuel seed
    rw [List.all_eq_true]
    intro u hu
    have h := crawl_page_visited_valid web fuel seed (initState seed)
      (by simp [initState])
    rw [crawl_page_base] at h
    have := h u hu
    rw [is_valid_url_eq] at this
    exact this
  · intro web fuel url st
    exact (crawl_page_grows web fuel url st).1

/-- C9 witness at a concrete site: the only visited URL of a one-page crawl
passes the filter, and the visited set of the run grew from the empty
list. -/
theorem claim_C9_witness :
    ((process_documentation webDupFail 3 "http://h/").visited_urls.all
      (fun u => code_filter "http://h/" u)) = true ∧
    (∃ t, (crawl_page webDupFail 3 "http://h/" (initState "http://h/")).visited_urls =
      (initState "http://h/").visited_urls ++ t) :=
  ⟨claim_C9.1 webDupFail 3 "http://h/",
   claim_C9.2 webDupFail 3 "http://h/" (initState "http://h/")⟩

/-- C10: `is_valid_url` is total; a URL (or base URL) that fails to parse
yields `false`, and a URL the filter rejects leaves the crawl state
untouched — the malformed link is silently skipped and the crawl
continues. -/
theorem claim_C10 :
    (∀ base_url url, urlparse url = none → is_valid_url base_url url = false) ∧
    (∀ base_url url, urlparse base_url = none → is_valid_url base_url url = false) ∧
    (∀ web fuel url st, is_valid_url st.base_url url = false →
      crawl_page web fuel url st = st) := by
  refine ⟨?_, ?_, ?_⟩
  · intro b u h
    simp [is_valid_url, h]
  · intro b u h
    cases h2 : urlparse u <;> simp [is_valid_url, h, h2]
  · intro web fuel url st h
    cases fuel with
    | zero => rfl
    | succ n => simp [crawl_page, h]

/-- C10 witness: the link `http://[bad/x` (unmatched IPv6 bracket, a string
`urlparse` raises on) is rejected by the filter and skipped by the crawl. -/
theorem claim_C10_witness :
    is_valid_url "http://h/" "http://[bad/x" = false ∧
    crawl_page webDown 5 "http://[bad/x" (initState "http://h/") =
      initState "http://h/" :=
  ⟨claim_C10.1 "http://h/" "http://[bad/x" (by decide),
   claim_C10.2.2 webDown 5 "http://[bad/x" (initState "http://h/") (by decide)⟩

/-- C2, corrected.  What holds is that no URL is *successfully* fetched more
than once per run: the visited set never acquires a duplicate, and at most
one GET per URL returns 2xx.  (A URL whose fetch fails is not marked
visited and may be fetched again — see the counterexample.) -/
theorem claim_C2 :
    ∀ web fuel seed,
      (process_documentation web fuel seed).visited_urls.Nodup ∧
      ∀ u, succCount u (process_documentation web fuel seed).fetched ≤ 1 := by
  intro web fuel seed
  have h : DedupInv (process_documentation web fuel seed) := by
    refine crawl_page_dedup web fuel seed (initState seed) ?_
    refine ⟨List.nodup_nil, ?_⟩
    intro u
    simp [initState, succCount]
  refine ⟨h.1, ?_⟩
  intro u
  rw [h.2 u]
  split <;> simp

/-- C2 fails as stated: on `webDupFail` the seed page links twice to
`http://h/x`, whose fetch fails; the URL is never marked visited, so the
crawler issues two HTTP GETs for it in one run. -/
theorem claim_C2_counterexample :
    (process_documentation webDupFail 3 "http://h/").fetched =
      [("http://h/", true), ("http://h/x", false), ("http://h/x", false)] ∧
    fetchCount "http://h/x" (process_documentation webDupFail 3 "http://h/").fetched = 2 := by
  decide

/-- C3, corrected.  Every stored chunk does come from a URL whose fetch
returned 2xx and whose page had a content region, and the chunk is exactly
what extraction produced for that page; but the claim's parenthetical is
wrong: a region with no text yields a chunk whose body is the empty string,
and that chunk IS stored (see the counterexample). -/
theorem claim_C3 :
    ∀ web fuel seed,
      ((process_documentation web fuel seed).chunks.all
        (fun c =>
          match web c.url with
          | .ok d => decide ((extract_content d c.url).2 = some c)
          | .fail => false)) = true := by
  intro web fuel seed
  rw [List.all_eq_true]
  intro c hc
  have h := crawl_page_chunks_sound web fuel seed (initState seed)
    (by simp [initState]) c hc
  rcases h with ⟨doc, hweb, hex⟩
  rw [hweb]
  exact decide_eq_true hex

/-- C3's parenthetical fails on the code: a page whose `body` element holds
no text still produces a stored record, with an empty body. -/
theorem claim_C3_counterexample :
    (process_documentation webEmptyBody 2 "http://h/").chunks =
      [⟨"", "http://h/", some "http://h/"⟩] ∧
    ((process_documentation webEmptyBody 2 "http://h/").chunks.map
      (fun c => c.content)) = [""] := by
  decide

/-- C4: the claim matches the code's visible intent (the dead
`try/except ... raise` in `initialize_with_url` and `main`'s handler), but
not its behaviour: when the seed URL's fetch fails, `crawl_page` catches and
logs the exception and the executor future is never awaited, so
`initialize_with_url` completes normally with zero chunks instead of
re-raising.  Evaluated at the failing input: the GET for the seed fails,
yet the result is `ok` with an empty chunk list. -/
theorem claim_C4 :
    initialize_with_url webDown 1 "http://h/" =
      Except.ok ⟨some ⟨"http://h/", [], [], [("http://h/", false)]⟩⟩ :=
  rfl

/-- C5: on a page with `nav`, `header`, `footer`, `script`, `style` elements
and a `main` element whose non-empty text nodes in document order are `"A"`
and `"B"`, extraction produces the record with body `"A B"`, and none of the
stripped elements' text survives in it. -/
theorem claim_C5 :
    (extract_content extractionDoc "http://h/p").2 =
      some ⟨"A B", "http://h/p", some "T"⟩ ∧
    containsStr "A B" "NAVTEXT" = false ∧
    containsStr "A B" "HEADERTEXT" = false ∧
    containsStr "A B" "FOOTERTEXT" = false ∧
    containsStr "A B" "SCRIPTTEXT" = false ∧
    containsStr "A B" "STYLETEXT" = false := by
  decide

/-- C6, corrected.  The record's title is `soup.title.string`: the single
text child of the first `title` element when that element is present and
has exactly one text child, the null value when a `title` element is present
without one (e.g. `<title></title>`), and the page's URL only when no
`title` element exists at all. -/
theorem claim_C6 (doc : HtmlForest) (url : String) (c : DocumentChunk)
    (h : (extract_content doc url).2 = some c) :
    c.title =
      match findTitle (decomposeForest decomposedTags doc) with
      | some tEl => titleString tEl
      | none => some url := by
  simp only [extract_content] at h
  split at h
  · simp at h
  · simp only [Option.some.injEq] at h
    subst h
    rfl

/-- C6 witness: on the extraction-correctness page the stored title is the
title element's text `"T"`. -/
theorem claim_C6_witness :
    (⟨"A B", "http://h/p", some "T"⟩ : DocumentChunk).title =
      match findTitle (decomposeForest decomposedTags extractionDoc) with
      | some tEl => titleString tEl
      | none => some "http://h/p" :=
  claim_C6 extractionDoc "http://h/p" ⟨"A B", "http://h/p", some "T"⟩ (by decide)

/-- C6 fails as stated: on a page whose `title` element is present but
empty, the stored record's title is the null value — neither the title
element's (empty) text nor the URL. -/
theorem claim_C6_counterexample :
    (extract_content emptyTitleDoc "http://h/p").2 =
      some ⟨"x", "http://h/p", none⟩ ∧
    findTitle (decomposeForest decomposedTags emptyTitleDoc) =
      some (.elem "title" [] none .nil) ∧
    " ".intercalate (strippedStrings (.elem "title" [] none .nil)) = "" ∧
    (none : Option String) ≠ some "" ∧
    (none : Option String) ≠ some "http://h/p" :=
  ⟨by decide, rfl, rfl, by decide, by decide⟩

/-- C7: `format_context` on an agent whose processor holds no chunks (or no
processor at all) is the empty string with no preamble, and
`answer_question` before initialization returns the fixed
uninitialized-state message — both are total functions, so nothing is
thrown. -/
theorem claim_C7 :
    (∀ (b : String) (v : List String) (f : List (String × Bool)),
      format_context ⟨some ⟨b, v, [], f⟩⟩ = "") ∧
    format_context ⟨none⟩ = "" ∧
    (∀ (complete : String → Except String String) (q : String),
      answer_question complete ⟨none⟩ q = (⟨none⟩, uninitializedMsg)) := by
  refine ⟨?_, rfl, ?_⟩
  · intro b v f
    rfl
  · intro complete q
    rfl

/-- C8: when the completion collaborator fails, `answer_question` returns
the error-description string (which contains the error's text) and leaves
the agent's crawl state exactly as it was. -/
theorem claim_C8 (p : CrawlState) (q : String)
    (complete : String → Except String String) (e : String)
    (h : complete (mk_prompt (format_context ⟨some p⟩) q) = Except.error e) :
    answer_question complete ⟨some p⟩ q =
      (⟨some p⟩, "Error generating answer: " ++ e) ∧
    containsStr ("Error generating answer: " ++ e) e = true := by
  constructor
  · simp only [answer_question, h]
  · exact containsStr_append_self "Error generating answer: " e

/-- C8 witness at a concrete failing collaborator. -/
theorem claim_C8_witness :
    answer_question (fun _ => Except.error "boom") ⟨some (initState "b")⟩ "q" =
      (⟨some (initState "b")⟩, "Error generating answer: boom") ∧
    containsStr "Error generating answer: boom" "boom" = true :=
  claim_C8 (initState "b") "q" (fun _ => Except.error "boom") "boom" rfl

end QA
